import Mathlib

/-!
Verification of the branch-cleanup core of the gitbranchmanager VS Code
extension.  The definitions below are a shallow embedding, translated from
the TypeScript sources (`app.ts` and `webview/panel.ts`): JavaScript strings
are modelled through their character lists, the regular expressions used by
the source are compiled by hand into the equivalent deterministic character
scanners, and the stateful webview handlers are modelled as pure functions
over an explicit environment (git outcomes and user confirmations).
-/

namespace GitBranchManager

/-! ### JavaScript string primitives, modelled on character lists -/

/-- JS `name.startsWith(p)`. -/
def strStartsWith (s p : String) : Bool := p.data.isPrefixOf s.data

/-- JS `name.endsWith(p)`. -/
def strEndsWith (s p : String) : Bool := p.data.isSuffixOf s.data

/-- JS `s.slice(0, -n)` for `n` ≥ 1: drop the last `n` characters. -/
def strDropRight (s : String) (n : Nat) : String := String.mk (s.data.take (s.data.length - n))

/-- JS `s.includes(c)` for a single character. -/
def strContainsChar (s : String) (c : Char) : Bool := s.data.contains c

/-- JS `s.trim()`: strip whitespace from both ends. -/
def strTrim (s : String) : String :=
  String.mk (((s.data.dropWhile Char.isWhitespace).reverse.dropWhile Char.isWhitespace).reverse)

def splitOnCharAux (c : Char) : List Char → List Char → List String
  | [], acc => [String.mk acc.reverse]
  | x :: rest, acc =>
    if x == c then String.mk acc.reverse :: splitOnCharAux c rest []
    else splitOnCharAux c rest (x :: acc)

/-- JS `s.split(c)` for a single-character separator. -/
def strSplitOnChar (s : String) (c : Char) : List String := splitOnCharAux c s.data []

def splitLinesAux : List Char → List Char → List String
  | [], acc => [String.mk acc.reverse]
  | '\r' :: '\n' :: rest, acc => String.mk acc.reverse :: splitLinesAux rest []
  | '\n' :: rest, acc => String.mk acc.reverse :: splitLinesAux rest []
  | c :: rest, acc => splitLinesAux rest (c :: acc)

/-- JS `s.split(/\r?\n/)`. -/
def splitLines (s : String) : List String := splitLinesAux s.data []

/-! ### Protected-branch matcher (`isProtectedBranch` in `app.ts`) -/

/-- Characters matched by `.` in a JS regex without the `s` flag
(everything except the four line terminators). -/
def jsDotChar (c : Char) : Bool :=
  !(c == '\n' || c == '\r' || c == Char.ofNat 0x2028 || c == Char.ofNat 0x2029)

/-- All suffixes of `cs` reachable by letting a `.*` consume characters:
drop any number of leading `jsDotChar` characters. -/
def dotStarSuffixes : List Char → List (List Char)
  | [] => [[]]
  | c :: cs => (c :: cs) :: (if jsDotChar c then dotStarSuffixes cs else [])

/-- Matcher for the anchored regex built in the glob branch of
`isProtectedBranch`: the pattern is split on `*` into literal segments
(metacharacters escaped, hence literal comparison) joined by `.*`. -/
def segsMatch : List (List Char) → List Char → Bool
  | [], cs => cs.isEmpty
  | [seg], cs => cs == seg
  | seg :: rest, cs =>
    seg.isPrefixOf cs && (dotStarSuffixes (cs.drop seg.length)).any (fun t => segsMatch rest t)

/-- One iteration of the `isProtectedBranch` loop: does pattern `p` match
`name`?  Mirrors the three branches of the source: trailing `*` prefix
match, general glob, exact equality. -/
def patternMatches (name p : String) : Bool :=
  if strEndsWith p "*" then
    strStartsWith name (strDropRight p 1)
  else if strContainsChar p '*' then
    segsMatch ((strSplitOnChar p '*').map String.data) name.data
  else
    name == p

/-- `isProtectedBranch(name, protectedList)` from `app.ts`: first pattern
match wins, no match at all means not protected. -/
def isProtectedBranch (name : String) (protectedList : List String) : Bool :=
  protectedList.any (fun p => patternMatches name p)

/-! ### Merged (dead) branch detection (`detectDeadBranches`) -/

/-- The `l.replace(/^\*\s+/, '')` step: remove a leading `*` followed by at
least one whitespace character (and the whole whitespace run). -/
def stripStarMark (l : String) : String :=
  match l.data with
  | '*' :: c :: rest =>
    if c.isWhitespace then String.mk ((c :: rest).dropWhile Char.isWhitespace) else l
  | _ => l

/-- The `n.replace(/^\(no branch\)$/, '')` step. -/
def stripNoBranch (n : String) : String :=
  if n == "(no branch)" then "" else n

/-- `detectDeadBranches` from `app.ts`, as a pure function of the
`git branch --merged base` stdout, the current branch (none when detached)
and the configured protected list.  Lines are split, trimmed, de-blanked;
the current-branch marker and the blank-ref placeholder are stripped; empty
names, the current branch and protected branches are excluded. -/
def detectDeadBranches (stdout : String) (current : Option String)
    (protectedList : List String) : List String :=
  let lines := ((splitLines stdout).map strTrim).filter (fun s => !(s == ""))
  let names := (lines.map stripStarMark).map stripNoBranch
  names.filter (fun n => !(n == "") && (some n != current) && !isProtectedBranch n protectedList)

/-! ### Gone-branch detection (`detectGoneBranches`) -/

/-- Does the character list start with `\s*gone]` (the tail of the gone
annotation)?  `\s*` is greedy and `g` is not whitespace, so the maximal
whitespace run is the only viable split. -/
def goneTail (cs : List Char) : Bool :=
  "gone]".data.isPrefixOf (cs.dropWhile Char.isWhitespace)

/-- Backtracking search for the `[^\]]+:\s*gone\]` part of the gone regex:
after the opening bracket, some nonempty run of non-`]` characters, then a
colon, then `\s*gone]`.  `n` counts the characters already consumed by the
`[^\]]+` run. -/
def bracketGone : List Char → Nat → Bool
  | [], _ => false
  | c :: rest, n =>
    if c == ']' then false
    else (decide (0 < n) && c == ':' && goneTail rest) || bracketGone rest (n + 1)

/-- Hand-compiled matcher for the anchored regex
`/^\*?\s+(\S+)\s+\S+\s+\[[^\]]+:\s*gone\]/` used by `detectGoneBranches`;
returns the captured branch name.  The `\s`/`\S` alternations are
deterministic (maximal munch), and only the bracket interior needs the
backtracking search of `bracketGone`. -/
def goneLineName (l : String) : Option String :=
  let cs1 := match l.data with
    | '*' :: r => r
    | r => r
  match cs1 with
  | [] => none
  | c1 :: r1 =>
    if !c1.isWhitespace then none
    else
      let afterWs1 := r1.dropWhile Char.isWhitespace
      let name := afterWs1.takeWhile (fun c => !c.isWhitespace)
      if name.isEmpty then none
      else
        let r2 := afterWs1.dropWhile (fun c => !c.isWhitespace)
        match r2 with
        | [] => none
        | c2 :: r2' =>
          if !c2.isWhitespace then none
          else
            let afterWs2 := r2'.dropWhile Char.isWhitespace
            let tok2 := afterWs2.takeWhile (fun c => !c.isWhitespace)
            if tok2.isEmpty then none
            else
              let r3 := afterWs2.dropWhile (fun c => !c.isWhitespace)
              match r3 with
              | [] => none
              | c3 :: r3' =>
                if !c3.isWhitespace then none
                else
                  match r3'.dropWhile Char.isWhitespace with
                  | '[' :: inside =>
                    if bracketGone inside 0 then some (String.mk name) else none
                  | _ => none

/-- `detectGoneBranches` from `app.ts` as a pure function of the
`git branch -vv` stdout, the current branch and the protected list. -/
def detectGoneBranches (stdout : String) (current : Option String)
    (protectedList : List String) : List String :=
  (((splitLines stdout).filter (fun s => !(s == ""))).filterMap goneLineName).filter
    (fun n => (some n != current) && !isProtectedBranch n protectedList)

/-! ### Stale-branch detection and status aggregation -/

/-- Last-commit information per branch, as built by
`getBranchLastCommitDates` (`date` is the raw ISO string, `ageInDays` the
floored day difference, an integer). -/
structure DateInfo where
  date : String
  ageInDays : Int
deriving DecidableEq

/-- `detectStaleBranches` from `app.ts`: iterate the date map (modelled as
an association list in insertion order) and keep branches whose age is at
least the threshold, excluding current and protected branches. -/
def detectStaleBranches (dates : List (String × DateInfo)) (staleDays : Int)
    (current : Option String) (protectedList : List String) : List String :=
  (dates.filter (fun nd =>
    decide (staleDays ≤ nd.2.ageInDays) && (some nd.1 != current) &&
      !isProtectedBranch nd.1 protectedList)).map Prod.fst

/-- The fields of a branch row that the cleanup-status logic touches
(`BranchRow` in `app.ts`; TS optional fields become `Option`, absent by
default). -/
structure BranchRow where
  short : String
  upstream : Option String := none
  isMerged : Option Bool := none
  isStale : Option Bool := none
  isGone : Option Bool := none
  lastCommitDate : Option String := none
  lastCommitAgeInDays : Option Int := none
deriving DecidableEq

/-- The per-row update performed by the loop in
`listLocalBranchesWithStatus`: set `isMerged`/`isGone` from the detection
sets and, only when the branch is present in the date map, set the date
fields and `isStale := ageInDays >= staleDays`. -/
def setLocalStatus (b : BranchRow) (mergedSet goneSet : List String)
    (datesMap : List (String × DateInfo)) (staleDays : Int) : BranchRow :=
  let b1 := { b with
    isMerged := some (mergedSet.contains b.short),
    isGone := some (goneSet.contains b.short) }
  match datesMap.lookup b.short with
  | some di =>
    { b1 with
      lastCommitDate := some di.date,
      lastCommitAgeInDays := some di.ageInDays,
      isStale := some (decide (staleDays ≤ di.ageInDays)) }
  | none => b1

/-- `listLocalBranchesWithStatus` (join phase): apply `setLocalStatus` to
every listed row. -/
def listLocalBranchesWithStatus (branches : List BranchRow)
    (mergedSet goneSet : List String) (datesMap : List (String × DateInfo))
    (staleDays : Int) : List BranchRow :=
  branches.map (fun b => setLocalStatus b mergedSet goneSet datesMap staleDays)

/-! ### Remote merged detection and remote status (`detectMergedRemoteBranches`,
`listRemoteBranchesWithStatus`) -/

/-- `detectMergedRemoteBranches` from `app.ts`: split and trim the
`git branch -r --merged base` stdout, drop blank entries, entries ending in
`/HEAD` and entries equal to `base`. -/
def detectMergedRemoteBranches (stdout : String) (base : String) : List String :=
  ((((splitLines stdout).filter (fun s => !(s == ""))).map strTrim).filter
    (fun name => !(name == "") && !strEndsWith name "/HEAD" && name != base))

/-- The per-row update performed by the loop in
`listRemoteBranchesWithStatus`: set `isMerged` from the merged set and the
date/stale fields only when present in the remote date map. -/
def setRemoteStatus (b : BranchRow) (mergedSet : List String)
    (datesMap : List (String × DateInfo)) (staleDays : Int) : BranchRow :=
  let b1 := { b with isMerged := some (mergedSet.contains b.short) }
  match datesMap.lookup b.short with
  | some di =>
    { b1 with
      lastCommitDate := some di.date,
      lastCommitAgeInDays := some di.ageInDays,
      isStale := some (decide (staleDays ≤ di.ageInDays)) }
  | none => b1

/-- `listRemoteBranchesWithStatus` (join phase). -/
def listRemoteBranchesWithStatus (branches : List BranchRow)
    (mergedSet : List String) (datesMap : List (String × DateInfo))
    (staleDays : Int) : List BranchRow :=
  branches.map (fun b => setRemoteStatus b mergedSet datesMap staleDays)

/-! ### Bulk cleanup handlers (`webview/panel.ts`)

The stateful handlers are modelled as pure functions: the outcome of each
git delete is a deterministic oracle in `GitEnv`, each user confirmation is
a fixed answer in `Prompts`, and the result records the delete commands the
handler issued together with its bookkeeping lists. -/

/-- The configuration fields the bulk handlers read. -/
structure CleanupCfg where
  protectedList : List String
  confirmBeforeDelete : Bool
  forceDeleteLocal : Bool

/-- Outcomes of git delete commands: `localDeleteOk name force` and
`remoteDeleteOk remote name` tell whether the command succeeds. -/
structure GitEnv where
  localDeleteOk : String → Bool → Bool
  remoteDeleteOk : String → String → Bool

/-- Answers to the (up to three) confirmation dialogs of a bulk run. -/
structure Prompts where
  proceed : Bool
  forceRetry : Bool
  deleteUntracked : Bool

/-- An entry of the tracked/untracked remote partition in
`executeCleanup` (`{remote, name, full}` in the source). -/
structure RemoteTarget where
  remote : String
  name : String
  full : String
deriving DecidableEq

/-- Observable outcome of a bulk handler run: the local delete commands
issued (name, force flag), the remote delete commands issued
(remote, name), and the handler's bookkeeping lists and prompts. -/
structure CleanupResult where
  localCmds : List (String × Bool) := []
  remoteCmds : List (String × String) := []
  deletedBranches : List String := []
  failedLocal : List String := []
  failedRemote : List String := []
  askedForce : Bool := false
  askedUntracked : Bool := false
deriving DecidableEq

/-- The tracked half of the partition loop in `executeCleanup`: deleted
branches whose recorded upstream contains a `/`, keeping those whose
remote-side name is not protected. -/
def trackedRemotes (cfg : CleanupCfg) (upstreams : List (String × String))
    (deleted : List String) : List RemoteTarget :=
  deleted.filterMap (fun name =>
    match upstreams.lookup name with
    | some up =>
      if strContainsChar up '/' then
        let parts := strSplitOnChar up '/'
        let rName := String.intercalate "/" (parts.drop 1)
        if !isProtectedBranch rName cfg.protectedList then
          some ⟨parts.headD "", rName, up⟩
        else none
      else none
    | none => none)

/-- The untracked half of the partition loop in `executeCleanup`: deleted
branches with no recorded upstream (or an upstream without `/`), keeping
those not protected; the target is always `origin/<name>`. -/
def untrackedRemotes (cfg : CleanupCfg) (upstreams : List (String × String))
    (deleted : List String) : List RemoteTarget :=
  deleted.filterMap (fun name =>
    let tracked := match upstreams.lookup name with
      | some up => strContainsChar up '/'
      | none => false
    if tracked then none
    else if !isProtectedBranch name cfg.protectedList then
      some ⟨"origin", name, "origin/" ++ name⟩
    else none)

/-- Outcome of the shared local-deletion phase of both bulk handlers
(first safe pass plus the conditional force-retry of the failed subset). -/
structure LocalPhase where
  cmds : List (String × Bool)
  deleted : List String
  failed : List String
  asked : Bool
deriving DecidableEq

/-- The local-deletion phase, identical in `executeCleanup` and
`deleteSelectedBranches`: a first pass deleting every candidate with the
configured force flag, then — when some failed and `forceDeleteLocal` is
unset — a second confirmation and, if granted, a forced retry of exactly
the failed subset, whose still-failing names replace `failedLocal`. -/
def localDeletePhase (cfg : CleanupCfg) (env : GitEnv) (pr : Prompts)
    (branches : List String) : LocalPhase :=
  let deleted1 := branches.filter (fun n => env.localDeleteOk n cfg.forceDeleteLocal)
  let failed1 := branches.filter (fun n => !env.localDeleteOk n cfg.forceDeleteLocal)
  let cmds1 := branches.map (fun n => (n, cfg.forceDeleteLocal))
  let askForce := !failed1.isEmpty && !cfg.forceDeleteLocal
  let doForce := askForce && pr.forceRetry
  { cmds := cmds1 ++ (if doForce then failed1.map (fun n => (n, true)) else []),
    deleted :=
      if doForce then deleted1 ++ failed1.filter (fun n => env.localDeleteOk n true) else deleted1,
    failed :=
      if doForce then failed1.filter (fun n => !env.localDeleteOk n true) else failed1,
    asked := askForce }

/-- The remote-cascade phase of `executeCleanup` (the `includeRemote`
branch): partition the deleted branches into tracked and untracked targets,
delete tracked ones recording failures, then — after one confirmation
asked exactly when the untracked batch is nonempty — attempt every
untracked one, ignoring individual failures. -/
def remoteCascade (cfg : CleanupCfg) (env : GitEnv) (pr : Prompts)
    (upstreams : List (String × String)) (lp : LocalPhase) : CleanupResult :=
  let tracked := trackedRemotes cfg upstreams lp.deleted
  let untracked := untrackedRemotes cfg upstreams lp.deleted
  let askUn := !untracked.isEmpty
  { localCmds := lp.cmds,
    remoteCmds := tracked.map (fun t => (t.remote, t.name)) ++
      (if askUn && pr.deleteUntracked then untracked.map (fun t => (t.remote, t.name)) else []),
    deletedBranches := lp.deleted,
    failedLocal := lp.failed,
    failedRemote :=
      (tracked.filter (fun t => !env.remoteDeleteOk t.remote t.name)).map RemoteTarget.full,
    askedForce := lp.asked,
    askedUntracked := askUn }

/-- The `executeCleanup` message handler of `webview/panel.ts` as a pure
function: empty-input and confirmation guards, the local-deletion phase,
then the optional remote cascade. -/
def executeCleanup (cfg : CleanupCfg) (env : GitEnv) (pr : Prompts)
    (branches : List String) (includeRemote : Bool)
    (upstreams : List (String × String)) : CleanupResult :=
  if branches.isEmpty then {} else
  if !(!cfg.confirmBeforeDelete || pr.proceed) then {} else
  let lp := localDeletePhase cfg env pr branches
  if includeRemote then remoteCascade cfg env pr upstreams lp
  else
    { localCmds := lp.cmds,
      remoteCmds := [],
      deletedBranches := lp.deleted,
      failedLocal := lp.failed,
      failedRemote := [],
      askedForce := lp.asked,
      askedUntracked := false }

/-- The `deleteSelectedBranches` message handler of `webview/panel.ts` as a
pure function: the same local phase, then the remote loop, which parses
each `remote/name`, records protected names as failed without issuing a
command, and records individual delete failures. -/
def deleteSelectedBranches (cfg : CleanupCfg) (env : GitEnv) (pr : Prompts)
    (localBranches remoteBranches : List String) : CleanupResult :=
  if localBranches.length + remoteBranches.length == 0 then {} else
  if !(!cfg.confirmBeforeDelete || pr.proceed) then {} else
  let lp := localDeletePhase cfg env pr localBranches
  let parsedR := remoteBranches.map (fun fullName =>
    let parts := strSplitOnChar fullName '/'
    (fullName, parts.headD "", String.intercalate "/" (parts.drop 1)))
  { localCmds := lp.cmds,
    remoteCmds := parsedR.filterMap (fun t =>
      if isProtectedBranch t.2.2 cfg.protectedList then none else some (t.2.1, t.2.2)),
    deletedBranches := [],
    failedLocal := lp.failed,
    failedRemote := parsedR.filterMap (fun t =>
      if isProtectedBranch t.2.2 cfg.protectedList then some t.1
      else if !env.remoteDeleteOk t.2.1 t.2.2 then some t.1 else none),
    askedForce := lp.asked,
    askedUntracked := false }

/-! ### Base-branch resolution (`resolveBaseBranch` in `app.ts`) -/

/-- The repository/configuration environment `resolveBaseBranch` reads:
the configured base branch, the stdout of the `symbolic-ref` query for
`origin/HEAD` (none when the command fails), the set of existing local
branches (names for which `show-ref --verify` succeeds) and the current
branch (none when detached). -/
structure BaseEnv where
  cfgBaseBranch : String
  symbolicRefOut : Option String
  localBranches : List String
  currentBranch : Option String

/-- Matcher for the JS regex `/refs\/remotes\/origin\/(.+)$/`: scan for the
leftmost occurrence of the literal prefix that is followed by a nonempty
run of non-line-terminator characters reaching the end of the string, and
capture that run. -/
def matchOriginHeadAux : List Char → Option String
  | [] => none
  | c :: rest =>
    if "refs/remotes/origin/".data.isPrefixOf (c :: rest) then
      let capt := (c :: rest).drop 20
      if !capt.isEmpty && capt.all jsDotChar then some (String.mk capt)
      else matchOriginHeadAux rest
    else matchOriginHeadAux rest

/-- `stdout.trim().match(/refs\/remotes\/origin\/(.+)$/)`, capture group 1. -/
def matchOriginHead (s : String) : Option String := matchOriginHeadAux s.data

/-- `resolveBaseBranch` from `app.ts` as a pure function of `BaseEnv`.
The JS guard `cfg.baseBranch && cfg.baseBranch !== 'auto'` is truthiness:
the empty string falls through to the auto path. -/
def resolveBaseBranch (e : BaseEnv) : String :=
  if !(e.cfgBaseBranch == "") && !(e.cfgBaseBranch == "auto") then e.cfgBaseBranch
  else
    match e.symbolicRefOut.bind (fun out => matchOriginHead (strTrim out)) with
    | some m => m
    | none =>
      match ["main", "master", "develop"].find? (fun cand => e.localBranches.contains cand) with
      | some cand => cand
      | none => e.currentBranch.getD "main"

/-- Definition following the amended resolution-order wording of the spec:
the configured base verbatim when it is non-empty and not the sentinel
`"auto"`; else the branch pointed to by the remote symbolic HEAD; else the
first of `main`, `master`, `develop` that exists locally; else the current
branch; else the literal `"main"`. -/
def resolveBaseBranchSpec (e : BaseEnv) : String :=
  if e.cfgBaseBranch ≠ "" ∧ e.cfgBaseBranch ≠ "auto" then e.cfgBaseBranch
  else
    match e.symbolicRefOut.bind (fun out => matchOriginHead (strTrim out)) with
    | some m => m
    | none =>
      if e.localBranches.contains "main" then "main"
      else if e.localBranches.contains "master" then "master"
      else if e.localBranches.contains "develop" then "develop"
      else e.currentBranch.getD "main"

end GitBranchManager

namespace GitBranchManager

/-- C2 counterexample: with the protected list `["release/*"]` the bare name
`"release"` is NOT protected — the stripped prefix is `"release/"` and
`"release"` does not start with it, contradicting the claim that the bare
name is protected. -/
theorem isProtected_release_bare_false :
    isProtectedBranch "release" ["release/*"] = false := by decide

/-- C2 (amended): for the pattern list `["release/*"]`, `isProtectedBranch`
returns `true` for `"release/1.0"` (pure `startsWith` on the stripped prefix
`"release/"`) but `false` for the bare name `"release"`, which lacks the
trailing separator required by the prefix. -/
theorem isProtected_release_star_cases :
    isProtectedBranch "release/1.0" ["release/*"] = true ∧
    isProtectedBranch "release" ["release/*"] = false := by decide

/-- C10: if the protected list contains a pattern that ends in `*` and whose
text before that final `*` is empty (the bare pattern `"*"`), then every
branch name — including the empty string — is protected. -/
theorem isProtected_star_all (n : String) (patterns : List String)
    (h : ∃ p ∈ patterns, strEndsWith p "*" = true ∧ strDropRight p 1 = "") :
    isProtectedBranch n patterns = true := by
  obtain ⟨p, hp, hend, hpre⟩ := h
  unfold isProtectedBranch
  rw [List.any_eq_true]
  refine ⟨p, hp, ?_⟩
  unfold patternMatches
  rw [hend, if_pos rfl, hpre]
  unfold strStartsWith
  rw [show ("" : String).data = [] from rfl, List.isPrefixOf_iff_prefix]
  exact List.nil_prefix

/-- Witness for C10 at the concrete pattern list `["*"]`. -/
theorem isProtected_star_all_witness :
    isProtectedBranch "" ["*"] = true ∧ isProtectedBranch "feature/x" ["*"] = true :=
  ⟨isProtected_star_all "" ["*"] ⟨"*", by decide, by decide, by decide⟩,
   isProtected_star_all "feature/x" ["*"] ⟨"*", by decide, by decide, by decide⟩⟩

/-- The gone regex never matches the empty line. -/
theorem goneLineName_empty : goneLineName "" = none := rfl

/-- C6: on the spec's Scenario C input the detected dead set is exactly
`["bugfix-123"]`; and in general every name returned by
`detectDeadBranches` is non-empty, differs from the current branch and
matches no protected pattern. -/
theorem detectDead_spec :
    detectDeadBranches "  main\n* feature/done\n  bugfix-123\n  develop\n"
      (some "feature/done") ["main", "develop"] = ["bugfix-123"] ∧
    ∀ stdout current protectedList n,
      n ∈ detectDeadBranches stdout current protectedList →
        n ≠ "" ∧ some n ≠ current ∧ isProtectedBranch n protectedList = false := by
  constructor
  · decide
  · intro stdout current protectedList n hn
    unfold detectDeadBranches at hn
    simp only [List.mem_filter] at hn
    obtain ⟨-, hcond⟩ := hn
    simp only [Bool.and_eq_true, Bool.not_eq_true', bne_iff_ne, beq_eq_false_iff_ne] at hcond
    exact ⟨hcond.1.1, hcond.1.2, hcond.2⟩

/-- Witness for C6, applying the general part at Scenario C. -/
theorem detectDead_spec_witness :
    "bugfix-123" ≠ "" ∧ some "bugfix-123" ≠ some "feature/done" ∧
      isProtectedBranch "bugfix-123" ["main", "develop"] = false :=
  detectDead_spec.2 "  main\n* feature/done\n  bugfix-123\n  develop\n"
    (some "feature/done") ["main", "develop"] "bugfix-123" (by decide)

/-- C7: on the spec's Scenario B listing only `old-feature` (whose line has
a `[...: gone]` annotation) is returned, not `local-only`; and in general a
name is returned by `detectGoneBranches` exactly when some line of the
listing matches the gone regex with that name as capture and the name is
neither the current branch nor protected. -/
theorem detectGone_spec :
    detectGoneBranches
      "  old-feature  def5678 [origin/old-feature: gone] old commit\n  local-only  abc1234 local work\n"
      (some "main") [] = ["old-feature"] ∧
    ∀ stdout current protectedList n,
      n ∈ detectGoneBranches stdout current protectedList ↔
        ((∃ l ∈ splitLines stdout, goneLineName l = some n) ∧
          some n ≠ current ∧ isProtectedBranch n protectedList = false) := by
  constructor
  · decide
  · intro stdout current protectedList n
    unfold detectGoneBranches
    constructor
    · intro hn
      simp only [List.mem_filter, List.mem_filterMap] at hn
      obtain ⟨⟨l, ⟨hlmem, -⟩, hgl⟩, hcond⟩ := hn
      simp only [Bool.and_eq_true, Bool.not_eq_true', bne_iff_ne] at hcond
      exact ⟨⟨l, hlmem, hgl⟩, hcond.1, hcond.2⟩
    · rintro ⟨⟨l, hl, hgl⟩, hcur, hprot⟩
      simp only [List.mem_filter, List.mem_filterMap]
      have hlne : l ≠ "" := by
        intro he
        rw [he, goneLineName_empty] at hgl
        exact Option.noConfusion hgl
      refine ⟨⟨l, ?_, hgl⟩, ?_⟩
      · simp only [List.mem_filter, Bool.not_eq_true', beq_eq_false_iff_ne]
        exact ⟨hl, hlne⟩
      · simp only [Bool.and_eq_true, Bool.not_eq_true', bne_iff_ne]
        exact ⟨hcur, hprot⟩

/-- Witness for C7, applying the characterization at Scenario B. -/
theorem detectGone_spec_witness :
    "old-feature" ∈
      detectGoneBranches
        "  old-feature  def5678 [origin/old-feature: gone] old commit\n  local-only  abc1234 local work\n"
        (some "main") [] :=
  (detectGone_spec.2
      "  old-feature  def5678 [origin/old-feature: gone] old commit\n  local-only  abc1234 local work\n"
      (some "main") [] "old-feature").mpr
    ⟨⟨"  old-feature  def5678 [origin/old-feature: gone] old commit", by decide, by decide⟩,
      by decide, by decide⟩

/-- C8: a branch whose recorded age equals the `staleDays` threshold gets
`isStale = some true` (inclusive comparison), one day younger gets
`some false`, a branch absent from the date map keeps its `isStale` field
untouched (no value set); and `detectStaleBranches` includes a
non-current, non-protected branch sitting exactly at the threshold. -/
theorem staleness_boundary (b : BranchRow) (mergedSet goneSet : List String)
    (datesMap : List (String × DateInfo)) (staleDays : Int) :
    (∀ di, datesMap.lookup b.short = some di →
      (di.ageInDays = staleDays →
        (setLocalStatus b mergedSet goneSet datesMap staleDays).isStale = some true) ∧
      (di.ageInDays = staleDays - 1 →
        (setLocalStatus b mergedSet goneSet datesMap staleDays).isStale = some false)) ∧
    (datesMap.lookup b.short = none →
      (setLocalStatus b mergedSet goneSet datesMap staleDays).isStale = b.isStale) ∧
    (∀ name di current protectedList, (name, di) ∈ datesMap →
      di.ageInDays = staleDays → some name ≠ current →
      isProtectedBranch name protectedList = false →
      name ∈ detectStaleBranches datesMap staleDays current protectedList) := by
  refine ⟨?_, ?_, ?_⟩
  · intro di hdi
    constructor
    · intro hage
      simp [setLocalStatus, hdi, hage]
    · intro hage
      have : ¬ (staleDays ≤ di.ageInDays) := by omega
      simp [setLocalStatus, hdi, this]
  · intro hnone
    simp [setLocalStatus, hnone]
  · intro name di current protectedList hmem hage hcur hprot
    unfold detectStaleBranches
    simp only [List.mem_map, List.mem_filter]
    refine ⟨(name, di), ⟨hmem, ?_⟩, rfl⟩
    simp only [Bool.and_eq_true, Bool.not_eq_true', bne_iff_ne, decide_eq_true_eq]
    exact ⟨⟨by omega, hcur⟩, hprot⟩

/-- Witness for C8 at a concrete row and date map (threshold 30). -/
theorem staleness_boundary_witness :
    (setLocalStatus ⟨"feat", none, none, none, none, none, none⟩ [] []
        [("feat", ⟨"2025-01-01", 30⟩)] 30).isStale = some true ∧
    (setLocalStatus ⟨"feat", none, none, none, none, none, none⟩ [] []
        [("feat", ⟨"2025-01-02", 29⟩)] 30).isStale = some false ∧
    (setLocalStatus ⟨"feat", none, none, none, none, none, none⟩ [] [] [] 30).isStale = none ∧
    "feat" ∈ detectStaleBranches [("feat", ⟨"2025-01-01", 30⟩)] 30 (some "main") [] :=
  ⟨((staleness_boundary ⟨"feat", none, none, none, none, none, none⟩ [] []
        [("feat", ⟨"2025-01-01", 30⟩)] 30).1 ⟨"2025-01-01", 30⟩ (by decide)).1 rfl,
   ((staleness_boundary ⟨"feat", none, none, none, none, none, none⟩ [] []
        [("feat", ⟨"2025-01-02", 29⟩)] 30).1 ⟨"2025-01-02", 29⟩ (by decide)).2 (by decide),
   (staleness_boundary ⟨"feat", none, none, none, none, none, none⟩ [] [] [] 30).2.1 rfl,
   (staleness_boundary ⟨"feat", none, none, none, none, none, none⟩ [] []
        [("feat", ⟨"2025-01-01", 30⟩)] 30).2.2 "feat" ⟨"2025-01-01", 30⟩ (some "main") []
     (by decide) (by decide) (by decide) (by decide)⟩

/-- C4 (code bug): against the resolved base branch `"main"`, the remote
merged set keeps `origin/main` — the exclusion compares the prefixed remote
name with the unprefixed base (`name !== base`), so the base branch's own
remote record is flagged `isMerged = some true`, contradicting both the
claim and the source comment that the base branch itself is skipped. -/
theorem baseRemoteRef_flagged_merged :
    "origin/main" ∈ detectMergedRemoteBranches "  origin/main\n  origin/feature-x\n" "main" ∧
    (listRemoteBranchesWithStatus [⟨"origin/main", none, none, none, none, none, none⟩]
        (detectMergedRemoteBranches "  origin/main\n  origin/feature-x\n" "main")
        [] 30).map BranchRow.isMerged = [some true] := by decide

/-- Helper: a nonempty list has `isEmpty = false`. -/
theorem isEmpty_false_of_ne_nil {α : Type} {l : List α} (h : l ≠ []) : l.isEmpty = false := by
  cases l with
  | nil => exact absurd rfl h
  | cons a t => rfl

/-- Helper: `!l.isEmpty` is `true` exactly for nonempty lists. -/
theorem not_isEmpty_iff_ne_nil {α : Type} {l : List α} : (!l.isEmpty) = true ↔ l ≠ [] := by
  cases l <;> simp

/-- C1 (code bug): neither bulk handler checks `isProtectedBranch` for the
local names it deletes: with the default protected list, the protected name
`main` in the input set is deleted (a safe local delete command is issued
for it and it even enters `deletedBranches`) by both `executeCleanup` and
`deleteSelectedBranches`. -/
theorem bulkCleanup_deletes_protected_local :
    isProtectedBranch "main" ["main", "master", "develop"] = true ∧
    ("main", false) ∈
      (executeCleanup ⟨["main", "master", "develop"], false, false⟩
        ⟨fun _ _ => true, fun _ _ => true⟩ ⟨false, false, false⟩
        ["main"] false []).localCmds ∧
    "main" ∈
      (executeCleanup ⟨["main", "master", "develop"], false, false⟩
        ⟨fun _ _ => true, fun _ _ => true⟩ ⟨false, false, false⟩
        ["main"] false []).deletedBranches ∧
    ("main", false) ∈
      (deleteSelectedBranches ⟨["main", "master", "develop"], false, false⟩
        ⟨fun _ _ => true, fun _ _ => true⟩ ⟨false, false, false⟩
        ["main"] []).localCmds := by decide

/-- C3 counterexample: `executeCleanup` performs no remote-existence check
for untracked names.  In a run where the remote has no branch `x` at all
(every remote delete fails as nonexistent), the extra untracked-deletion
confirmation is still asked, the delete of `origin/x` is attempted anyway,
and its failure is silently swallowed. -/
theorem untracked_confirm_without_existence_check :
    (executeCleanup ⟨[], false, false⟩ ⟨fun _ _ => true, fun _ _ => false⟩
        ⟨false, false, true⟩ ["x"] true []).askedUntracked = true ∧
    (executeCleanup ⟨[], false, false⟩ ⟨fun _ _ => true, fun _ _ => false⟩
        ⟨false, false, true⟩ ["x"] true []).remoteCmds = [("origin", "x")] ∧
    (executeCleanup ⟨[], false, false⟩ ⟨fun _ _ => true, fun _ _ => false⟩
        ⟨false, false, true⟩ ["x"] true []).failedRemote = [] := by decide

/-- Helper run equation: with the guards passed, `executeCleanup` with the
include-remote flag is the remote cascade applied to the local phase. -/
theorem executeCleanup_run_remote (cfg : CleanupCfg) (env : GitEnv) (pr : Prompts)
    (branches : List String) (upstreams : List (String × String))
    (hproceed : (!cfg.confirmBeforeDelete || pr.proceed) = true) (hne : branches ≠ []) :
    executeCleanup cfg env pr branches true upstreams =
      remoteCascade cfg env pr upstreams (localDeletePhase cfg env pr branches) := by
  have h1 : ¬(branches.isEmpty = true) := by
    rw [isEmpty_false_of_ne_nil hne]; decide
  have h2 : ¬((!(!cfg.confirmBeforeDelete || pr.proceed)) = true) := by
    rw [hproceed]; decide
  unfold executeCleanup
  rw [if_neg h1, if_neg h2]
  rfl

/-- Helper run equation: with the guards passed and no remote cascade,
`executeCleanup` reports exactly the local-phase fields. -/
theorem executeCleanup_run_local (cfg : CleanupCfg) (env : GitEnv) (pr : Prompts)
    (branches : List String) (upstreams : List (String × String))
    (hproceed : (!cfg.confirmBeforeDelete || pr.proceed) = true) (hne : branches ≠ []) :
    executeCleanup cfg env pr branches false upstreams =
      { localCmds := (localDeletePhase cfg env pr branches).cmds,
        remoteCmds := [],
        deletedBranches := (localDeletePhase cfg env pr branches).deleted,
        failedLocal := (localDeletePhase cfg env pr branches).failed,
        failedRemote := [],
        askedForce := (localDeletePhase cfg env pr branches).asked,
        askedUntracked := false } := by
  have h1 : ¬(branches.isEmpty = true) := by
    rw [isEmpty_false_of_ne_nil hne]; decide
  have h2 : ¬((!(!cfg.confirmBeforeDelete || pr.proceed)) = true) := by
    rw [hproceed]; decide
  unfold executeCleanup
  rw [if_neg h1, if_neg h2]
  rfl

/-- Helper: with the guards passed, the local-side fields of
`deleteSelectedBranches` are exactly the local-phase fields. -/
theorem deleteSelectedBranches_localFields (cfg : CleanupCfg) (env : GitEnv) (pr : Prompts)
    (localBranches remoteBranches : List String)
    (hproceed : (!cfg.confirmBeforeDelete || pr.proceed) = true)
    (hne : localBranches.length + remoteBranches.length ≠ 0) :
    (deleteSelectedBranches cfg env pr localBranches remoteBranches).localCmds =
        (localDeletePhase cfg env pr localBranches).cmds ∧
    (deleteSelectedBranches cfg env pr localBranches remoteBranches).failedLocal =
        (localDeletePhase cfg env pr localBranches).failed ∧
    (deleteSelectedBranches cfg env pr localBranches remoteBranches).askedForce =
        (localDeletePhase cfg env pr localBranches).asked := by
  have h1 : ¬((localBranches.length + remoteBranches.length == 0) = true) := by
    simpa using hne
  have h2 : ¬((!(!cfg.confirmBeforeDelete || pr.proceed)) = true) := by
    rw [hproceed]; decide
  unfold deleteSelectedBranches
  rw [if_neg h1, if_neg h2]
  refine ⟨?_, ?_, ?_⟩ <;> rfl

/-- C3 (amended): with the include-remote flag set, every successfully
deleted non-protected local branch with no slash-bearing recorded upstream
joins the untracked batch with no existence re-check; the single extra
confirmation is asked exactly when that batch is nonempty; when granted,
every untracked name is attempted on `origin` (one failure never aborts the
rest); and untracked failures are never reported — `failedRemote` lists
exactly the tracked failures. -/
theorem untracked_batch_behaviour (cfg : CleanupCfg) (env : GitEnv) (pr : Prompts)
    (branches : List String) (upstreams : List (String × String))
    (hconfirm : cfg.confirmBeforeDelete = false) (hne : branches ≠ []) :
    ((executeCleanup cfg env pr branches true upstreams).askedUntracked = true ↔
      untrackedRemotes cfg upstreams
        (executeCleanup cfg env pr branches true upstreams).deletedBranches ≠ []) ∧
    (pr.deleteUntracked = true →
      ∀ t ∈ untrackedRemotes cfg upstreams
          (executeCleanup cfg env pr branches true upstreams).deletedBranches,
        (t.remote, t.name) ∈ (executeCleanup cfg env pr branches true upstreams).remoteCmds) ∧
    ((executeCleanup cfg env pr branches true upstreams).failedRemote =
      ((trackedRemotes cfg upstreams
          (executeCleanup cfg env pr branches true upstreams).deletedBranches).filter
        (fun t => !env.remoteDeleteOk t.remote t.name)).map RemoteTarget.full) := by
  have hproceed : (!cfg.confirmBeforeDelete || pr.proceed) = true := by simp [hconfirm]
  rw [executeCleanup_run_remote cfg env pr branches upstreams hproceed hne]
  simp only [remoteCascade]
  refine ⟨not_isEmpty_iff_ne_nil, ?_, trivial⟩
  intro hdel t ht
  have hu : (untrackedRemotes cfg upstreams
      (localDeletePhase cfg env pr branches).deleted).isEmpty = false :=
    isEmpty_false_of_ne_nil (List.ne_nil_of_mem ht)
  rw [hu, hdel]
  exact List.mem_append.mpr (Or.inr (List.mem_map.mpr ⟨t, ht, rfl⟩))

/-- Witness for C3 (amended) at a concrete run: one deleted branch `x`
with no upstream. -/
theorem untracked_batch_behaviour_witness :
    (executeCleanup ⟨[], false, false⟩ ⟨fun _ _ => true, fun _ _ => true⟩
        ⟨false, false, true⟩ ["x"] true []).askedUntracked = true ∧
    ("origin", "x") ∈ (executeCleanup ⟨[], false, false⟩ ⟨fun _ _ => true, fun _ _ => true⟩
        ⟨false, false, true⟩ ["x"] true []).remoteCmds :=
  ⟨(untracked_batch_behaviour ⟨[], false, false⟩ ⟨fun _ _ => true, fun _ _ => true⟩
      ⟨false, false, true⟩ ["x"] [] rfl (by decide)).1.mpr (by decide),
   (untracked_batch_behaviour ⟨[], false, false⟩ ⟨fun _ _ => true, fun _ _ => true⟩
      ⟨false, false, true⟩ ["x"] [] rfl (by decide)).2.1 rfl
     ⟨"origin", "x", "origin/x"⟩ (by decide)⟩

/-- Helper run equation for the local phase under force-retry: safe pass
with force off, failures nonempty, retry granted. -/
theorem localDeletePhase_run (cfg : CleanupCfg) (env : GitEnv) (pr : Prompts)
    (branches : List String) (hforce : cfg.forceDeleteLocal = false)
    (hgrant : pr.forceRetry = true)
    (hfail : branches.filter (fun n => !env.localDeleteOk n false) ≠ []) :
    localDeletePhase cfg env pr branches =
      { cmds := branches.map (fun n => (n, false)) ++
          (branches.filter (fun n => !env.localDeleteOk n false)).map (fun n => (n, true)),
        deleted := branches.filter (fun n => env.localDeleteOk n false) ++
          (branches.filter (fun n => !env.localDeleteOk n false)).filter
            (fun n => env.localDeleteOk n true),
        failed := (branches.filter (fun n => !env.localDeleteOk n false)).filter
          (fun n => !env.localDeleteOk n true),
        asked := true } := by
  have hfe : (branches.filter (fun n => !env.localDeleteOk n false)).isEmpty = false :=
    isEmpty_false_of_ne_nil hfail
  unfold localDeletePhase
  simp only [hforce, hgrant, hfe]
  rfl

/-- C5: in both bulk handlers, when safe deletes fail with `forceDeleteLocal`
unset, the second (force) confirmation is asked; once granted, the issued
local commands are the safe pass followed by a forced retry of exactly the
first-pass failures; a name whose safe delete succeeded is never retried
with force; and the reported local failures are exactly the names that also
failed the forced retry. -/
theorem forceRetry_exact (cfg : CleanupCfg) (env : GitEnv) (pr : Prompts)
    (hforce : cfg.forceDeleteLocal = false) (hconfirm : cfg.confirmBeforeDelete = false)
    (hgrant : pr.forceRetry = true) :
    (∀ branches includeRemote upstreams, branches ≠ [] →
      branches.filter (fun n => !env.localDeleteOk n false) ≠ [] →
      ((executeCleanup cfg env pr branches includeRemote upstreams).askedForce = true ∧
        (executeCleanup cfg env pr branches includeRemote upstreams).localCmds =
          branches.map (fun n => (n, false)) ++
            (branches.filter (fun n => !env.localDeleteOk n false)).map (fun n => (n, true)) ∧
        (∀ n, env.localDeleteOk n false = true →
          (n, true) ∉ (executeCleanup cfg env pr branches includeRemote upstreams).localCmds) ∧
        (executeCleanup cfg env pr branches includeRemote upstreams).failedLocal =
          (branches.filter (fun n => !env.localDeleteOk n false)).filter
            (fun n => !env.localDeleteOk n true))) ∧
    (∀ localBranches remoteBranches, localBranches ≠ [] →
      localBranches.filter (fun n => !env.localDeleteOk n false) ≠ [] →
      ((deleteSelectedBranches cfg env pr localBranches remoteBranches).askedForce = true ∧
        (deleteSelectedBranches cfg env pr localBranches remoteBranches).localCmds =
          localBranches.map (fun n => (n, false)) ++
            (localBranches.filter (fun n => !env.localDeleteOk n false)).map
              (fun n => (n, true)) ∧
        (∀ n, env.localDeleteOk n false = true →
          (n, true) ∉ (deleteSelectedBranches cfg env pr localBranches remoteBranches).localCmds) ∧
        (deleteSelectedBranches cfg env pr localBranches remoteBranches).failedLocal =
          (localBranches.filter (fun n => !env.localDeleteOk n false)).filter
            (fun n => !env.localDeleteOk n true))) := by
  have hproceed : (!cfg.confirmBeforeDelete || pr.proceed) = true := by simp [hconfirm]
  have hnotmem : ∀ (branches : List String) n, env.localDeleteOk n false = true →
      (n, true) ∉ branches.map (fun m => (m, false)) ++
        (branches.filter (fun m => !env.localDeleteOk m false)).map (fun m => (m, true)) := by
    intro branches n hn hmem
    rcases List.mem_append.mp hmem with h1 | h2
    · obtain ⟨m, -, he⟩ := List.mem_map.mp h1
      have hsnd : (false : Bool) = true := congrArg Prod.snd he
      exact absurd hsnd (by decide)
    · obtain ⟨m, hm, he⟩ := List.mem_map.mp h2
      have hmn : m = n := congrArg Prod.fst he
      have hm2 := (List.mem_filter.mp hm).2
      rw [hmn, hn] at hm2
      exact absurd hm2 (by decide)
  constructor
  · intro branches includeRemote upstreams hne hfail
    have hlp := localDeletePhase_run cfg env pr branches hforce hgrant hfail
    cases includeRemote
    case false =>
      rw [executeCleanup_run_local cfg env pr branches upstreams hproceed hne, hlp]
      exact ⟨rfl, rfl, fun n hn => hnotmem branches n hn, rfl⟩
    case true =>
      rw [executeCleanup_run_remote cfg env pr branches upstreams hproceed hne, hlp]
      exact ⟨rfl, rfl, fun n hn => hnotmem branches n hn, rfl⟩
  · intro localBranches remoteBranches hne hfail
    have hlen : localBranches.length + remoteBranches.length ≠ 0 := by
      cases localBranches with
      | nil => exact absurd rfl hne
      | cons a t => simp only [List.length_cons]; omega
    obtain ⟨hc, hf, ha⟩ :=
      deleteSelectedBranches_localFields cfg env pr localBranches remoteBranches hproceed hlen
    have hlp := localDeletePhase_run cfg env pr localBranches hforce hgrant hfail
    rw [hc, hf, ha, hlp]
    exact ⟨rfl, rfl, fun n hn => hnotmem localBranches n hn, rfl⟩

/-- Witness for C5: branches `a` (safe delete fails, forced delete
succeeds) and `b` (safe delete succeeds); the commands are the two safe
deletes then the forced retry of `a` alone, and nothing remains failed. -/
theorem forceRetry_exact_witness :
    (executeCleanup ⟨[], false, false⟩
        ⟨fun n f => n != "a" || f, fun _ _ => true⟩ ⟨false, true, false⟩
        ["a", "b"] false []).localCmds = [("a", false), ("b", false), ("a", true)] ∧
    (executeCleanup ⟨[], false, false⟩
        ⟨fun n f => n != "a" || f, fun _ _ => true⟩ ⟨false, true, false⟩
        ["a", "b"] false []).failedLocal = [] := by
  have h := (forceRetry_exact ⟨[], false, false⟩
      ⟨fun n f => n != "a" || f, fun _ _ => true⟩ ⟨false, true, false⟩ rfl rfl rfl).1
      ["a", "b"] false [] (by decide) (by decide)
  exact ⟨h.2.1.trans (by decide), h.2.2.2.trans (by decide)⟩

/-- C9 counterexample: the empty configured base branch is different from
the sentinel `"auto"`, yet it is not returned verbatim — the JS truthiness
guard sends the empty string down the auto path (here to the existing local
`master`). -/
theorem resolveBase_empty_config :
    ("" : String) ≠ "auto" ∧
      resolveBaseBranch ⟨"", none, ["master"], none⟩ = "master" := by decide

/-- C9 (amended): `resolveBaseBranch` is total (a Lean function returning a
string, never failing) and agrees everywhere with the five-rule cascade in
which rule 1 additionally requires the configured base to be non-empty:
configured value, remote symbolic HEAD, first existing of
main/master/develop, current branch, literal `"main"`. -/
theorem resolveBase_eq_spec (e : BaseEnv) :
    resolveBaseBranch e = resolveBaseBranchSpec e := by
  unfold resolveBaseBranch resolveBaseBranchSpec
  by_cases h1 : e.cfgBaseBranch = "" <;>
    by_cases h2 : e.cfgBaseBranch = "auto" <;>
      cases ho : e.symbolicRefOut.bind (fun out => matchOriginHead (strTrim out)) <;>
        cases hm : e.localBranches.contains "main" <;>
          cases hma : e.localBranches.contains "master" <;>
            cases hd : e.localBranches.contains "develop" <;>
              simp_all [List.find?]

end GitBranchManager
